import Mathlib

/-!
Verification development for the ccsessionctl repository (Rust).

Shallow embedding conventions:
* Rust `String` and `&str` values are modelled as `List Char` (`Str`), one
  element per Unicode scalar value.  Rust `str::len` (a byte count) is
  modelled by `byteLen`, which sums the UTF-8 encoded size of each scalar;
  `s.chars().count()` is modelled by `charCount`.
* Rust `str::to_lowercase` is modelled per scalar with `Char.toLower`
  (exact on ASCII, which covers every tag and separator the program
  compares against; exotic one-to-many Unicode lowercasings are out of
  scope of the model).
* `serde_json::Value` is modelled by the inductive `Json`; JSON numbers are
  modelled as integers, which is enough for every claim considered here.
* `chrono::DateTime<Utc>` values are modelled as `Int` (seconds since the
  epoch); parsing a timestamp string is an explicit function parameter of
  the record decoder.
* Fallible Rust paths return `Option`.
-/

namespace CcSessionCtl

/-- Strings of the Rust source, one list element per Unicode scalar value. -/
abbrev Str := List Char

/-- Embed a Lean string literal into the model. -/
def str (s : String) : Str := s.data

/-- Number of bytes of the UTF-8 encoding of one scalar value. -/
def utf8Size (c : Char) : Nat :=
  if c.toNat < 0x80 then 1
  else if c.toNat < 0x800 then 2
  else if c.toNat < 0x10000 then 3
  else 4

/-- Model of Rust `str::len`: the number of UTF-8 bytes. -/
def byteLen (s : Str) : Nat := (s.map utf8Size).sum

/-- Model of Rust `s.chars().count()`. -/
def charCount (s : Str) : Nat := s.length

/-- Model of Rust `str::to_lowercase` (per-scalar ASCII lowercasing). -/
def lowerStr (s : Str) : Str := s.map Char.toLower

/-- Model of Rust `str::contains(needle)`: substring test.  On valid UTF-8,
byte-level containment of a whole string coincides with scalar-level
containment, because UTF-8 is self-synchronizing. -/
def containsStr (hay needle : Str) : Bool := decide (needle <:+: hay)

/-- Model of `serde_json::Value`. -/
inductive Json where
  | null
  | bool (b : Bool)
  | num (n : Int)
  | str (s : Str)
  | arr (elems : List Json)
  | obj (fields : List (Str × Json))

/-- Model of `Value::get(key)` on objects (`None` on any other shape). -/
def Json.get : Json → Str → Option Json
  | .obj fields, k => (fields.find? (fun p => decide (p.1 = k))).map (fun p => p.2)
  | _, _ => none

/-- Model of `Value::as_str`. -/
def Json.asStr : Json → Option Str
  | .str s => some s
  | _ => none

/-- Model of `Value::as_array`. -/
def Json.asArray : Json → Option (List Json)
  | .arr elems => some elems
  | _ => none

/-- Model of `ContentBlock` from `src/session/types.rs` (tag = "type",
snake_case; the catch-all variant is `Other`). -/
inductive ContentBlock where
  | Text (text : Str)
  | ToolResult (content : Json)
  | ToolUse (name : Str) (input : Option Json)
  | Thinking (thinking : Str)
  | Other

/-- `ContentBlock::truncate_result` from `src/session/types.rs`: keep the
string when its scalar count fits, else keep `max_chars - 3` scalars and
append a three-character ellipsis. -/
def truncate_result (s : Str) (max_chars : Nat) : Str :=
  if charCount s ≤ max_chars then s
  else s.take (max_chars - 3) ++ str "..."

/-- `ContentBlock::format_tool_result` from `src/session/types.rs`.  An
array contributes the newline-join of the string-valued `text` fields of
its items when at least one exists; otherwise a bare string contributes
itself; otherwise the literal `(result)`.  Both string forms are truncated
to 200 scalars. -/
def format_tool_result (content : Json) : Str :=
  let fromArr : Option Str :=
    match content.asArray with
    | some elems =>
      let texts := elems.filterMap (fun item => (item.get (str "text")).bind Json.asStr)
      if texts.isEmpty then none
      else some (truncate_result (List.intercalate (str "\n") texts) 200)
    | none => none
  match fromArr with
  | some r => r
  | none =>
    match content.asStr with
    | some s => truncate_result s 200
    | none => str "(result)"

/-- `ContentBlock::as_text` from `src/session/types.rs`. -/
def ContentBlock.as_text : ContentBlock → Option Str
  | .Text text => some text
  | .Thinking thinking => some (str "💭 " ++ thinking)
  | .ToolUse name input =>
    let input_preview : Str :=
      match (input.bind (fun v =>
          ((v.get (str "command")).or (v.get (str "pattern"))).or
            (v.get (str "file_path")))).bind Json.asStr with
      | some s =>
        if charCount s > 60 then str " \"" ++ s.take 57 ++ str "...\""
        else str " \"" ++ s ++ str "\""
      | none => []
    some (str "🔧 " ++ name ++ input_preview)
  | .ToolResult content => some (str "📋 " ++ format_tool_result content)
  | .Other => none

/-- Model of `MessageContent` (untagged: a bare string or a block list). -/
inductive MessageContent where
  | Text (s : Str)
  | Structured (blocks : List ContentBlock)

/-- `MessageContent::as_text`: the flattened text. -/
def MessageContent.as_text : MessageContent → Str
  | .Text s => s
  | .Structured blocks =>
    List.intercalate (str "\n") (blocks.filterMap ContentBlock.as_text)

/-- The fixed tag list `SYSTEM_TAGS` of `src/session/types.rs`, verbatim
(including the mixed-case `<claudeMd>` entry). -/
def SYSTEM_TAGS : List Str :=
  [str "<system-reminder>",
   str "<system>",
   str "<context>",
   str "<env>",
   str "<claude_background_info>",
   str "<user_privacy>",
   str "<critical_",
   str "<injection_",
   str "<meta_safety",
   str "<social_engineering",
   str "<mandatory_",
   str "<copyright_",
   str "<download_",
   str "<harmful_",
   str "<action_types>",
   str "<claudeMd>"]

/-- `MessageContent::is_system_content` from `src/session/types.rs`. -/
def MessageContent.is_system_content (mc : MessageContent) : Bool :=
  let text := mc.as_text
  if text.isEmpty then true
  else
    let text_lower := lowerStr text
    SYSTEM_TAGS.any (fun tag => tag.isPrefixOf text_lower)

/-- Model of `AssistantMessage` from `src/session/types.rs`. -/
structure AssistantMessage where
  role : Str
  content : List ContentBlock
  model : Option Str

/-- `AssistantMessage::as_text`. -/
def AssistantMessage.as_text (m : AssistantMessage) : Str :=
  List.intercalate (str "\n") (m.content.filterMap ContentBlock.as_text)

/-- Model of `Message` from `src/session/types.rs`. -/
structure Message where
  role : Str
  content : MessageContent

/-- Model of the record payload structs of `src/session/types.rs`.
`leafUuid`, `cwd`, `gitBranch`, `isMeta` and friends are optional. -/
structure SummaryRecord where
  summary : Str
  leaf_uuid : Option Str

structure CustomTitleRecord where
  custom_title : Str

structure FileHistorySnapshot where
  message_id : Str

structure UserRecord where
  uuid : Str
  timestamp : Int
  session_id : Str
  message : Message
  cwd : Option Str
  git_branch : Option Str
  is_meta : Option Bool

structure AssistantRecord where
  uuid : Str
  timestamp : Int
  session_id : Str
  message : AssistantMessage

structure SystemRecord where
  uuid : Option Str
  timestamp : Option Int
  session_id : Option Str

structure QueueOperationRecord where
  queue_operations : Option Json

/-- Model of `SessionRecord` (tag = "type", kebab-case, catch-all
`Unknown`). -/
inductive SessionRecord where
  | Summary (r : SummaryRecord)
  | CustomTitle (r : CustomTitleRecord)
  | FileHistorySnapshot (r : FileHistorySnapshot)
  | User (r : UserRecord)
  | Assistant (r : AssistantRecord)
  | System (r : SystemRecord)
  | QueueOperation (r : QueueOperationRecord)
  | Unknown

/-- Model of `Session` from `src/session/types.rs`.  The filesystem-only
fields `path` and `has_directory` are omitted; every other field is kept
in source order. -/
structure Session where
  id : Str
  project : Str
  project_raw : Str
  size_bytes : Nat
  modified : Int
  created : Option Int
  summary : Option Str
  first_message : Option Str
  message_count : Option Nat
  is_agent : Bool
  custom_title : Option Str
  search_content : Option Str
  token_count : Option Nat
deriving DecidableEq, Inhabited

/-- `truncate_message` from `src/session/parser.rs`: trim surrounding
whitespace, replace newlines by spaces, then truncate with the shared
ellipsis rule. -/
def normalize_message (s : Str) : Str :=
  List.rdropWhile Char.isWhitespace (s.dropWhile Char.isWhitespace)
  |>.map (fun c => if c = '\n' then ' ' else c)

def truncate_message (s : Str) (max_chars : Nat) : Str :=
  let s2 := normalize_message s
  if charCount s2 ≤ max_chars then s2
  else s2.take (max_chars - 3) ++ str "..."

/-- The maximal scalar prefix whose UTF-8 encoding fits in `n` bytes.
This models the byte slice `&id[..12]` of `get_session_preview`; on the
ASCII session ids produced by the scanner it is exactly the 12-byte
prefix (on a non-boundary the Rust code would panic). -/
def takeBytes : Nat → Str → Str
  | _, [] => []
  | n, c :: cs => if utf8Size c ≤ n then c :: takeBytes (n - utf8Size c) cs else []

/-- Decimal rendering of a count, for the `[{n} message(s)]` label. -/
def natStr (n : Nat) : Str := (Nat.repr n).data

/-- `get_session_preview` from `src/session/parser.rs`. -/
def get_session_preview (session : Session) : Str :=
  match session.custom_title with
  | some title => truncate_message title 50
  | none =>
  match session.first_message with
  | some msg => truncate_message msg 50
  | none =>
  match session.summary with
  | some summary => truncate_message summary 50
  | none =>
  let fallback :=
    let short_id :=
      if byteLen session.id > 12 then takeBytes 12 session.id ++ str "..."
      else session.id
    str "[" ++ short_id ++ str "]"
  match session.message_count with
  | some count =>
    if count > 0 then
      str "[" ++ natStr count ++ str " message" ++
        (if count = 1 then [] else str "s") ++ str "]"
    else fallback
  | none => fallback

/-!
The serde-derived decoder of one JSONL line, modelled field by field.
`pd` models `chrono` timestamp parsing (a required `DateTime` field must
be a JSON string that `pd` accepts); `pj` models `serde_json::from_str`
up to the `Value` level.
-/

/-- A required `String` field. -/
def decodeReqStr (v : Json) (k : Str) : Option Str := (v.get k).bind Json.asStr

/-- An `Option<String>` field: absent or null is `None`; any other
non-string value is a decode error. -/
def decodeOptStr (v : Json) (k : Str) : Option (Option Str) :=
  match v.get k with
  | none => some none
  | some .null => some none
  | some (.str s) => some (some s)
  | some _ => none

/-- An `Option<bool>` field. -/
def decodeOptBool (v : Json) (k : Str) : Option (Option Bool) :=
  match v.get k with
  | none => some none
  | some .null => some none
  | some (.bool b) => some (some b)
  | some _ => none

/-- A required `DateTime<Utc>` field: a string accepted by `pd`. -/
def decodeReqDate (pd : Str → Option Int) (v : Json) (k : Str) : Option Int :=
  match v.get k with
  | some (.str s) => pd s
  | _ => none

/-- An `Option<DateTime<Utc>>` field. -/
def decodeOptDate (pd : Str → Option Int) (v : Json) (k : Str) : Option (Option Int) :=
  match v.get k with
  | none => some none
  | some .null => some none
  | some (.str s) => (pd s).map some
  | some _ => none

/-- An `Option<serde_json::Value>` field. -/
def decodeOptValue (v : Json) (k : Str) : Option (Option Json) :=
  match v.get k with
  | none => some none
  | some .null => some none
  | some j => some (some j)

/-- Decoder for `ContentBlock` (internally tagged, snake_case, catch-all
`Other`). -/
def decodeContentBlock (v : Json) : Option ContentBlock :=
  match v with
  | .obj _ =>
    match decodeReqStr v (str "type") with
    | some tag =>
      if tag = str "text" then
        (decodeReqStr v (str "text")).map ContentBlock.Text
      else if tag = str "tool_result" then
        (v.get (str "content")).map ContentBlock.ToolResult
      else if tag = str "tool_use" then
        match decodeReqStr v (str "name"), decodeOptValue v (str "input") with
        | some n, some inp => some (ContentBlock.ToolUse n inp)
        | _, _ => none
      else if tag = str "thinking" then
        (decodeReqStr v (str "thinking")).map ContentBlock.Thinking
      else some ContentBlock.Other
    | none => none
  | _ => none

/-- Decoder for `MessageContent` (untagged: a JSON string, else an array
every element of which decodes as a block). -/
def decodeMessageContent (v : Json) : Option MessageContent :=
  match v with
  | .str s => some (MessageContent.Text s)
  | .arr elems => (elems.mapM decodeContentBlock).map MessageContent.Structured
  | _ => none

/-- Decoder for `Message`. -/
def decodeMessage (v : Json) : Option Message :=
  match v with
  | .obj _ =>
    match decodeReqStr v (str "role"), (v.get (str "content")).bind decodeMessageContent with
    | some role, some content => some ⟨role, content⟩
    | _, _ => none
  | _ => none

/-- Decoder for `AssistantMessage`. -/
def decodeAssistantMessage (v : Json) : Option AssistantMessage :=
  match v with
  | .obj _ =>
    match decodeReqStr v (str "role"),
          (v.get (str "content")).bind Json.asArray,
          decodeOptStr v (str "model") with
    | some role, some elems, some model =>
      (elems.mapM decodeContentBlock).map (fun blocks => ⟨role, blocks, model⟩)
    | _, _, _ => none
  | _ => none

/-- The discriminator values that select a non-`Unknown` variant. -/
def knownTags : List Str :=
  [str "summary", str "custom-title", str "file-history-snapshot",
   str "user", str "assistant", str "system", str "queue-operation"]

/-- Decoder for `SessionRecord`: internally tagged on the string field
`type`; an unrecognized tag decodes to `Unknown`; a missing or
non-string tag, or a field of the wrong shape, is a decode error. -/
def decodeSessionRecord (pd : Str → Option Int) (v : Json) : Option SessionRecord :=
  match v with
  | .obj _ =>
    match decodeReqStr v (str "type") with
    | some tag =>
      if tag = str "summary" then
        match decodeReqStr v (str "summary"), decodeOptStr v (str "leafUuid") with
        | some s, some lu => some (.Summary ⟨s, lu⟩)
        | _, _ => none
      else if tag = str "custom-title" then
        (decodeReqStr v (str "customTitle")).map (fun t => .CustomTitle ⟨t⟩)
      else if tag = str "file-history-snapshot" then
        (decodeReqStr v (str "messageId")).map (fun m => .FileHistorySnapshot ⟨m⟩)
      else if tag = str "user" then
        match decodeReqStr v (str "uuid"), decodeReqDate pd v (str "timestamp"),
              decodeReqStr v (str "sessionId"),
              (v.get (str "message")).bind decodeMessage,
              decodeOptStr v (str "cwd"), decodeOptStr v (str "gitBranch"),
              decodeOptBool v (str "isMeta") with
        | some u, some ts, some sid, some msg, some cwd, some gb, some im =>
          some (.User ⟨u, ts, sid, msg, cwd, gb, im⟩)
        | _, _, _, _, _, _, _ => none
      else if tag = str "assistant" then
        match decodeReqStr v (str "uuid"), decodeReqDate pd v (str "timestamp"),
              decodeReqStr v (str "sessionId"),
              (v.get (str "message")).bind decodeAssistantMessage with
        | some u, some ts, some sid, some msg => some (.Assistant ⟨u, ts, sid, msg⟩)
        | _, _, _, _ => none
      else if tag = str "system" then
        match decodeOptStr v (str "uuid"), decodeOptDate pd v (str "timestamp"),
              decodeOptStr v (str "sessionId") with
        | some u, some ts, some sid => some (.System ⟨u, ts, sid⟩)
        | _, _, _ => none
      else if tag = str "queue-operation" then
        (decodeOptValue v (str "queueOperations")).map (fun q => .QueueOperation ⟨q⟩)
      else some .Unknown
    | none => none
  | _ => none

/-- One line of `load_session_metadata` / `load_session_messages`: an
empty line is skipped; otherwise the line is parsed to JSON (`pj`) and
decoded; any failure skips the line. -/
def decode_line (pj : Str → Option Json) (pd : Str → Option Int) (line : Str) :
    Option SessionRecord :=
  if line.isEmpty then none
  else (pj line).bind (decodeSessionRecord pd)

/-- The mutable locals of `load_session_metadata` from
`src/session/parser.rs`. -/
structure ScanAcc where
  first_timestamp : Option Int
  first_user_message : Option Str
  summary : Option Str
  custom_title : Option Str
  message_count : Nat
  all_content : List Str
  total_chars : Nat

def initScanAcc : ScanAcc := ⟨none, none, none, none, 0, [], 0⟩

/-- Per-record accumulation of `load_session_metadata`.  Note that
`total_chars` advances by `str::len`, the UTF-8 byte count. -/
def scanStep (acc : ScanAcc) (record : SessionRecord) : ScanAcc :=
  match record with
  | .Summary r =>
    { acc with all_content := acc.all_content ++ [r.summary],
               total_chars := acc.total_chars + byteLen r.summary,
               summary := some r.summary }
  | .CustomTitle r => { acc with custom_title := some r.custom_title }
  | .User r =>
    let acc1 := { acc with message_count := acc.message_count + 1 }
    let acc2 :=
      if acc1.first_timestamp.isNone then { acc1 with first_timestamp := some r.timestamp }
      else acc1
    let text := r.message.content.as_text
    if text.isEmpty then acc2
    else
      let acc3 := { acc2 with all_content := acc2.all_content ++ [text],
                              total_chars := acc2.total_chars + byteLen text }
      if acc3.first_user_message.isNone && !r.message.content.is_system_content then
        { acc3 with first_user_message := some (truncate_message text 100) }
      else acc3
  | .Assistant r =>
    let acc1 := { acc with message_count := acc.message_count + 1 }
    let text := r.message.as_text
    if text.isEmpty then acc1
    else { acc1 with all_content := acc1.all_content ++ [text],
                     total_chars := acc1.total_chars + byteLen text }
  | .System _ => acc
  | _ => acc

/-- The accumulator after scanning all lines of a session file. -/
def scanLines (pj : Str → Option Json) (pd : Str → Option Int) (lines : List Str) : ScanAcc :=
  lines.foldl
    (fun acc line =>
      match decode_line pj pd line with
      | none => acc
      | some record => scanStep acc record)
    initScanAcc

/-- `load_session_metadata` from `src/session/parser.rs`, over the list of
lines of an openable session file. -/
def load_session_metadata (pj : Str → Option Json) (pd : Str → Option Int)
    (lines : List Str) (session : Session) : Session :=
  let acc := scanLines pj pd lines
  { session with
      created := acc.first_timestamp,
      summary := acc.summary,
      first_message := acc.first_user_message,
      custom_title := acc.custom_title,
      message_count := some acc.message_count,
      search_content := some (lowerStr (List.intercalate (str " ") acc.all_content)),
      token_count := some (acc.total_chars / 4) }

/-!
Embedding of `src/ui/state.rs`.  `HashSet<usize>` is modelled by
`Finset Nat`; `DateTime` comparison and `String` comparison (byte
lexicographic in Rust, which on valid UTF-8 agrees with scalar-value
lexicographic order) are modelled by explicit three-way comparators.
-/

/-- Rust `Ord::cmp` on natural numbers. -/
def cmpNat (a b : Nat) : Ordering :=
  if a < b then .lt else if a = b then .eq else .gt

/-- Rust `Ord::cmp` on integers (timestamps). -/
def cmpInt (a b : Int) : Ordering :=
  if a < b then .lt else if a = b then .eq else .gt

/-- Rust `Ord::cmp` on `char` (by scalar value). -/
def cmpChar (a b : Char) : Ordering := cmpNat a.toNat b.toNat

/-- Rust `Ord::cmp` on `String` (lexicographic). -/
def cmpStr : Str → Str → Ordering
  | [], [] => .eq
  | [], _ :: _ => .lt
  | _ :: _, [] => .gt
  | a :: as, b :: bs =>
    match cmpChar a b with
    | .eq => cmpStr as bs
    | o => o

/-- `SortField` from `src/ui/state.rs`. -/
inductive SortField where
  | Date
  | Size
  | Project
  | Name
deriving DecidableEq

/-- `Filter` from `src/ui/state.rs`. -/
structure Filter where
  query : Str
  project : Option Str
  age_days : Option Nat
deriving DecidableEq

/-- `UiState` from `src/ui/state.rs`, restricted to the fields the view
engine claims are about.  The transient presentation fields (current
view, dialog, status line, preview buffer and preview search) are
omitted: none of the modelled operations reads them. -/
structure UiState where
  sessions : List Session
  filtered_indices : List Nat
  cursor : Nat
  scroll_offset : Nat
  selected : Finset Nat
  filter : Filter
  projects : List Str
  project_filter_index : Nat
  sort_field : SortField
  sort_reversed : Bool

/-- `UiState::current_session_index`. -/
def current_session_index (st : UiState) : Option Nat :=
  st.filtered_indices.get? st.cursor

/-- `UiState::adjust_scroll` (visible height fixed at 20 in the source). -/
def adjust_scroll (st : UiState) : UiState :=
  let visible_height := 20
  if st.cursor < st.scroll_offset then { st with scroll_offset := st.cursor }
  else if st.scroll_offset + visible_height ≤ st.cursor then
    { st with scroll_offset := st.cursor - visible_height + 1 }
  else st

/-- `UiState::cursor_up`. -/
def cursor_up (st : UiState) : UiState :=
  if 0 < st.cursor then adjust_scroll { st with cursor := st.cursor - 1 } else st

/-- `UiState::cursor_down`. -/
def cursor_down (st : UiState) : UiState :=
  if st.cursor + 1 < st.filtered_indices.length then
    adjust_scroll { st with cursor := st.cursor + 1 }
  else st

/-- `UiState::cursor_top`. -/
def cursor_top (st : UiState) : UiState :=
  { st with cursor := 0, scroll_offset := 0 }

/-- `UiState::cursor_bottom`. -/
def cursor_bottom (st : UiState) : UiState :=
  if st.filtered_indices.isEmpty then st
  else adjust_scroll { st with cursor := st.filtered_indices.length - 1 }

/-- `UiState::page_up`. -/
def page_up (page_size : Nat) (st : UiState) : UiState :=
  adjust_scroll { st with cursor := st.cursor - page_size }

/-- `UiState::page_down`. -/
def page_down (page_size : Nat) (st : UiState) : UiState :=
  let mx := st.filtered_indices.length - 1
  adjust_scroll { st with cursor := min (st.cursor + page_size) mx }

/-- `UiState::toggle_selection`. -/
def toggle_selection (st : UiState) : UiState :=
  match current_session_index st with
  | some idx =>
    if idx ∈ st.selected then { st with selected := st.selected.erase idx }
    else { st with selected := insert idx st.selected }
  | none => st

/-- `UiState::select_all` (inserts every currently filtered index). -/
def select_all (st : UiState) : UiState :=
  { st with selected := st.selected ∪ st.filtered_indices.toFinset }

/-- `UiState::clear_selection`. -/
def clear_selection (st : UiState) : UiState :=
  { st with selected := ∅ }

/-- The per-session predicate of `UiState::apply_filters`.  `now` models
`Utc::now()`; `num_days` of a `chrono` signed duration truncates toward
zero, hence `Int.tdiv`. -/
def session_matches (now : Int) (flt : Filter) (query_lower : Str)
    (session : Session) : Bool :=
  (match flt.project with
   | some proj => decide (session.project = proj)
   | none => true) &&
  (match flt.age_days with
   | some days => !decide ((now - session.modified).tdiv 86400 < (days : Int))
   | none => true) &&
  (if query_lower.isEmpty then true
   else
     match session.search_content with
     | some content => containsStr content query_lower
     | none =>
       let search_text := lowerStr
         (session.project ++ str " " ++ session.id ++ str " " ++
          session.summary.getD [] ++ str " " ++ session.first_message.getD [])
       containsStr search_text query_lower)

/-- `UiState::apply_filters`. -/
def apply_filters (now : Int) (st : UiState) : UiState :=
  let query_lower := lowerStr st.filter.query
  let filtered := (st.sessions.enum.filter
      (fun p => session_matches now st.filter query_lower p.2)).map (fun p => p.1)
  let cursor := if filtered.length ≤ st.cursor then filtered.length - 1 else st.cursor
  { st with filtered_indices := filtered, cursor := cursor, scroll_offset := 0 }

/-- Session lookup used by the sort comparator (`sessions[a]`; always in
bounds when the view invariant holds). -/
def sessOf (sessions : List Session) (i : Nat) : Session :=
  sessions.getD i default

/-- The `Name` sort key: `summary` else `first_message` else empty. -/
def name_key (s : Session) : Str :=
  ((s.summary).or s.first_message).getD []

/-- The comparator closure of `UiState::apply_sort`. -/
def sort_cmp (sessions : List Session) (field : SortField) (reversed : Bool)
    (a b : Nat) : Ordering :=
  let sa := sessOf sessions a
  let sb := sessOf sessions b
  let cmp :=
    match field with
    | .Date => cmpInt sb.modified sa.modified
    | .Size => cmpNat sb.size_bytes sa.size_bytes
    | .Project => cmpStr sa.project sb.project
    | .Name => cmpStr (name_key sa) (name_key sb)
  if reversed then cmp.swap else cmp

/-- The "comes no later than" relation induced by the comparator; a
stable sort by the comparator orders the list by this relation. -/
def sortRel (sessions : List Session) (field : SortField) (reversed : Bool)
    (a b : Nat) : Prop :=
  sort_cmp sessions field reversed a b ≠ .gt

instance (sessions : List Session) (field : SortField) (reversed : Bool) :
    DecidableRel (sortRel sessions field reversed) := fun a b => by
  unfold sortRel
  infer_instance

/-- `UiState::apply_sort`.  Rust `sort_by` is a stable sort; for a total
preorder comparator every stable sort produces the same list, so it is
modelled by insertion sort. -/
def apply_sort (st : UiState) : UiState :=
  let sorted := List.insertionSort
    (sortRel st.sessions st.sort_field st.sort_reversed) st.filtered_indices
  let cursor := if sorted.length ≤ st.cursor then sorted.length - 1 else st.cursor
  { st with filtered_indices := sorted, cursor := cursor }

/-- The ascending order used by `Vec::sort` on project names. -/
def strAsc (a b : Str) : Prop := cmpStr a b ≠ .gt

instance : DecidableRel strAsc := fun a b => by
  unfold strAsc
  infer_instance

/-- `get_project_names` from `src/session/scanner.rs`: collect, sort,
remove consecutive duplicates. -/
def get_project_names (sessions : List Session) : List Str :=
  List.destutter (fun a b => a ≠ b)
    (List.insertionSort strAsc (sessions.map (fun s => s.project)))

/-- `UiState::cycle_project_filter`. -/
def cycle_project_filter (now : Int) (st : UiState) : UiState :=
  let idx := (st.project_filter_index + 1) % (st.projects.length + 1)
  let proj := if idx = 0 then none else some (st.projects.getD (idx - 1) [])
  apply_filters now
    { st with project_filter_index := idx,
              filter := { st.filter with project := proj } }

/-- `UiState::remove_sessions`: delete the given absolute indices in
descending order (skipping any out-of-range one against the current
length), clear the selection, reapply filters, recompute project names. -/
def remove_sessions (now : Int) (indices : Finset Nat) (st : UiState) : UiState :=
  let indices_vec := (indices.sort (fun a b => a ≤ b)).reverse
  let sessions := indices_vec.foldl
    (fun ss idx => if idx < ss.length then ss.eraseIdx idx else ss) st.sessions
  let st2 := apply_filters now { st with sessions := sessions, selected := ∅ }
  { st2 with projects := get_project_names sessions }

/-- The public `UiState` operations named by the view-state invariant
claim, as one event type. -/
inductive Op where
  | CursorUp
  | CursorDown
  | CursorTop
  | CursorBottom
  | PageUp (n : Nat)
  | PageDown (n : Nat)
  | ToggleSelection
  | SelectAll
  | ClearSelection
  | ApplyFilters (now : Int)
  | ApplySort
  | CycleProjectFilter (now : Int)
  | RemoveSessions (now : Int) (indices : Finset Nat)

/-- Dispatch one operation. -/
def stepOp : Op → UiState → UiState
  | .CursorUp => cursor_up
  | .CursorDown => cursor_down
  | .CursorTop => cursor_top
  | .CursorBottom => cursor_bottom
  | .PageUp n => page_up n
  | .PageDown n => page_down n
  | .ToggleSelection => toggle_selection
  | .SelectAll => select_all
  | .ClearSelection => clear_selection
  | .ApplyFilters now => apply_filters now
  | .ApplySort => apply_sort
  | .CycleProjectFilter now => cycle_project_filter now
  | .RemoveSessions now indices => remove_sessions now indices

/-- The view-state invariant: the cursor addresses a filtered row (or is
0 when nothing is filtered), every filtered index is an index of the
session collection, and so is every selected index. -/
def Inv (st : UiState) : Prop :=
  (st.cursor < st.filtered_indices.length ∨
    (st.filtered_indices = [] ∧ st.cursor = 0)) ∧
  (∀ i ∈ st.filtered_indices, i < st.sessions.length) ∧
  (∀ i ∈ st.selected, i < st.sessions.length)

instance (st : UiState) : Decidable (Inv st) := by
  unfold Inv
  infer_instance

/-- The sort order stated by the specification, per field and direction:
Date by `modified` descending, Size by `size_bytes` descending, Project
ascending lexicographic, Name by `summary` else `first_message` else
empty ascending lexicographic; reversal inverts the comparator. -/
def specSortRel (sessions : List Session) (field : SortField) (reversed : Bool)
    (a b : Nat) : Prop :=
  match field, reversed with
  | .Date, false => (sessOf sessions b).modified ≤ (sessOf sessions a).modified
  | .Size, false => (sessOf sessions b).size_bytes ≤ (sessOf sessions a).size_bytes
  | .Project, false => strAsc (sessOf sessions a).project (sessOf sessions b).project
  | .Name, false => strAsc (name_key (sessOf sessions a)) (name_key (sessOf sessions b))
  | .Date, true => (sessOf sessions a).modified ≤ (sessOf sessions b).modified
  | .Size, true => (sessOf sessions a).size_bytes ≤ (sessOf sessions b).size_bytes
  | .Project, true => strAsc (sessOf sessions b).project (sessOf sessions a).project
  | .Name, true => strAsc (name_key (sessOf sessions b)) (name_key (sessOf sessions a))

/-- `UiState::new`. -/
def UiState.new (sessions : List Session) : UiState :=
  { sessions := sessions,
    filtered_indices := List.range sessions.length,
    cursor := 0,
    scroll_offset := 0,
    selected := ∅,
    filter := ⟨[], none, none⟩,
    projects := get_project_names sessions,
    project_filter_index := 0,
    sort_field := .Date,
    sort_reversed := false }

/-- A freshly scanned session with the given id and mtime (all derived
fields unset), for concrete scenarios. -/
def sampleSession (id : String) (modified : Int) : Session :=
  ⟨str id, str "proj", str "-home-pknull-proj", 0, modified,
   none, none, none, none, false, none, none, none⟩

/-- A parser behavior mapping every line to one summary record whose text
is two non-ASCII scalars (2 bytes each in UTF-8). -/
def twoByteSummaryParse : Str → Option Json := fun _ =>
  some (Json.obj [(str "type", Json.str (str "summary")),
                  (str "summary", Json.str (str "éé"))])

/-- Three sessions whose mtimes satisfy T1 > T2 > T3 (30 > 20 > 10),
stored out of order, for the sort scenario. -/
def scenarioSessions : List Session :=
  [sampleSession "x" 20, sampleSession "y" 10, sampleSession "z" 30]

def scenarioState : UiState := UiState.new scenarioSessions

/-- A parser behavior mapping every line to a record with an unrecognized
discriminator. -/
def mysteryParse : Str → Option Json := fun _ =>
  some (Json.obj [(str "type", Json.str (str "mystery"))])

/-!
## Theorems
-/

/-- Claim C2, counterexample: `truncate_message` does not return its input
unchanged when the limit is at least the character count (it first trims
surrounding whitespace and replaces newlines), and `truncate_result` at a
limit below 3 returns the bare 3-character ellipsis rather than a string
of exactly `n` characters. -/
theorem c2_counterexample :
    truncate_message (str "  hi  ") 10 ≠ str "  hi  " ∧
    charCount (str "  hi  ") ≤ 10 ∧
    2 < charCount (str "hello") ∧
    charCount (truncate_result (str "hello") 2) ≠ 2 := by
  decide

/-- Claim C2 (amended): `truncate_result` satisfies the truncation law for
limits of at least 3 — exactly `n` characters ending in the 3-character
ellipsis when `n < char_count(s)`, the input unchanged when
`n ≥ char_count(s)` — counting characters, not bytes; `truncate_message`
first trims surrounding whitespace and replaces newlines by spaces and
then obeys the same law with respect to the normalized string. -/
theorem c2_truncation_law :
    ∀ (s : Str) (n : Nat),
      truncate_message s n = truncate_result (normalize_message s) n ∧
      (3 ≤ n → n < charCount s →
        charCount (truncate_result s n) = n ∧ str "..." <:+ truncate_result s n) ∧
      (charCount s ≤ n → truncate_result s n = s) := by
  intro s n
  refine ⟨rfl, fun h3 hlt => ?_, fun hle => ?_⟩
  · unfold truncate_result
    rw [if_neg (by omega)]
    constructor
    · have hdots : (str "...").length = 3 := rfl
      simp only [charCount, List.length_append, List.length_take, hdots] at *
      omega
    · exact List.suffix_append _ _
  · unfold truncate_result
    rw [if_pos hle]

/-- Claim C2 witness. -/
theorem c2_witness :
    charCount (truncate_result (str "abcdefghij") 5) = 5 ∧
    str "..." <:+ truncate_result (str "abcdefghij") 5 :=
  (c2_truncation_law (str "abcdefghij") 5).2.1 (by decide) (by decide)

/-- Claim C3, counterexample: on an array of objects none of which has a
string `text` field, the extracted summary is the literal `(result)`,
not the (empty) newline-join of the text fields that the claim
prescribes. -/
theorem c3_counterexample :
    format_tool_result (.arr [Json.obj []]) ≠
      truncate_result (List.intercalate (str "\n")
        (([Json.obj []]).filterMap
          (fun item => (item.get (str "text")).bind Json.asStr))) 200 := by
  decide

/-- Computation rule of `format_tool_result` on arrays. -/
theorem format_tool_result_arr (elems : List Json) :
    format_tool_result (.arr elems) =
      (if (elems.filterMap (fun item => (item.get (str "text")).bind Json.asStr)) = []
       then str "(result)"
       else truncate_result (List.intercalate (str "\n")
        (elems.filterMap (fun item => (item.get (str "text")).bind Json.asStr))) 200) := by
  unfold format_tool_result
  cases hfm : elems.filterMap (fun item => (item.get (str "text")).bind Json.asStr) with
  | nil =>
    simp only [Json.asArray]
    rw [hfm]
    simp [Json.asStr]
  | cons a l =>
    simp only [Json.asArray]
    rw [hfm]
    simp [Json.asStr]

/-- Claim C3 (amended): for an array payload, the summary is the
newline-join of the string-valued `text` fields (missing ones skipped)
truncated to 200 characters with ellipsis, provided at least one such
field exists; an array yielding no text fields falls through to the
literal `(result)`; a bare string payload is truncated the same way; any
other payload yields `(result)`; and the ToolResult rendering is the
result marker followed by that summary. -/
theorem c3_tool_result_summary :
    ∀ content : Json,
      (∀ elems, content = .arr elems →
        ((elems.filterMap (fun item => (item.get (str "text")).bind Json.asStr)) ≠ [] →
          format_tool_result content =
            truncate_result (List.intercalate (str "\n")
              (elems.filterMap (fun item => (item.get (str "text")).bind Json.asStr))) 200) ∧
        ((elems.filterMap (fun item => (item.get (str "text")).bind Json.asStr)) = [] →
          format_tool_result content = str "(result)")) ∧
      (∀ s, content = .str s → format_tool_result content = truncate_result s 200) ∧
      ((∀ elems, content ≠ .arr elems) → (∀ s, content ≠ .str s) →
        format_tool_result content = str "(result)") ∧
      ContentBlock.as_text (.ToolResult content) =
        some (str "📋 " ++ format_tool_result content) := by
  intro content
  refine ⟨?_, ?_, ?_, rfl⟩
  · rintro elems rfl
    constructor
    · intro hne
      rw [format_tool_result_arr, if_neg hne]
    · intro he
      rw [format_tool_result_arr, if_pos he]
  · rintro s rfl
    simp [format_tool_result, Json.asArray, Json.asStr]
  · intro harr hstr
    cases content with
    | arr elems => exact absurd rfl (harr elems)
    | str s => exact absurd rfl (hstr s)
    | null => rfl
    | bool b => rfl
    | num n => rfl
    | obj fields => rfl

/-- Claim C3 witness. -/
theorem c3_witness :
    format_tool_result (.arr [Json.obj [(str "text", Json.str (str "hi"))]]) =
      truncate_result (List.intercalate (str "\n")
        (([Json.obj [(str "text", Json.str (str "hi"))]]).filterMap
          (fun item => (item.get (str "text")).bind Json.asStr))) 200 :=
  ((c3_tool_result_summary (.arr [Json.obj [(str "text", Json.str (str "hi"))]])).1
    [Json.obj [(str "text", Json.str (str "hi"))]] rfl).1 (by decide)

/-- Claim C6: the classifier accepts the empty string and the known
system-tag examples in either case, rejects ordinary angle-bracket text
and mid-string tags, depends only on the lowercased text, and is
monotone under appending a suffix to a non-empty accepted text (matching
is prefix-only). -/
theorem c6_is_system_content :
    MessageContent.is_system_content (.Text (str "")) = true ∧
    MessageContent.is_system_content
      (.Text (str "<system-reminder>x</system-reminder>")) = true ∧
    MessageContent.is_system_content (.Text (str "<SYSTEM-REMINDER>")) = true ∧
    MessageContent.is_system_content
      (.Text (str "<html><body>test</body></html>")) = false ∧
    MessageContent.is_system_content (.Text (str "< 5 means less than five")) = false ∧
    MessageContent.is_system_content (.Text (str "hello <system-reminder>")) = false ∧
    (∀ s t : Str, lowerStr s = lowerStr t →
      MessageContent.is_system_content (.Text s) =
        MessageContent.is_system_content (.Text t)) ∧
    (∀ s r : Str, s ≠ [] → MessageContent.is_system_content (.Text s) = true →
      MessageContent.is_system_content (.Text (s ++ r)) = true) := by
  refine ⟨by decide, by decide, by decide, by decide, by decide, by decide, ?_, ?_⟩
  · intro s t h
    have hlen : s.length = t.length := by
      have := congrArg List.length h
      simpa [lowerStr] using this
    by_cases hs : s = []
    · subst hs
      have ht : t = [] := List.eq_nil_of_length_eq_zero hlen.symm
      subst ht
      rfl
    · have ht : t ≠ [] := by
        intro h0
        subst h0
        exact hs (List.eq_nil_of_length_eq_zero hlen)
      simp [MessageContent.is_system_content, MessageContent.as_text,
        List.isEmpty_iff, hs, ht, h]
  · intro s r hs hsys
    have hmem : ∃ tag ∈ SYSTEM_TAGS, tag <+: lowerStr s := by
      simpa [MessageContent.is_system_content, MessageContent.as_text,
        List.isEmpty_iff, hs, List.any_eq_true, List.isPrefixOf_iff_prefix]
        using hsys
    obtain ⟨tag, htag, hpre⟩ := hmem
    have hsr : s ++ r ≠ [] := by simp [hs]
    have hpre2 : tag <+: lowerStr (s ++ r) := by
      have : lowerStr (s ++ r) = lowerStr s ++ lowerStr r := by simp [lowerStr]
      rw [this]
      exact hpre.trans (List.prefix_append _ _)
    have hstep : MessageContent.is_system_content (.Text (s ++ r)) =
        SYSTEM_TAGS.any (fun tg => tg.isPrefixOf (lowerStr (s ++ r))) := by
      unfold MessageContent.is_system_content
      simp only [MessageContent.as_text]
      rw [if_neg (by simpa using hsr)]
    rw [hstep, List.any_eq_true]
    exact ⟨tag, htag, List.isPrefixOf_iff_prefix.mpr hpre2⟩

/-- Claim C6 witness. -/
theorem c6_witness :
    MessageContent.is_system_content (.Text (str "Hello World")) =
      MessageContent.is_system_content (.Text (str "hello world")) :=
  c6_is_system_content.2.2.2.2.2.2.1 (str "Hello World") (str "hello world") (by decide)

/-- No scalar value lowercases to the upper-case letter `M`. -/
theorem char_toLower_ne_M : ∀ c : Char, Char.toLower c ≠ 'M' := by
  intro c h
  unfold Char.toLower at h
  by_cases hr : c.toNat ≥ 65 ∧ c.toNat ≤ 90
  · rw [if_pos hr] at h
    have hv : (c.toNat + 32).isValidChar := Or.inl (by omega)
    have hval : (Char.ofNat (c.toNat + 32)).toNat = c.toNat + 32 := by
      unfold Char.ofNat
      rw [dif_pos hv]
      rfl
    rw [h] at hval
    have : ('M').toNat = 77 := rfl
    omega
  · rw [if_neg hr] at h
    subst h
    exact hr ⟨by decide, by decide⟩

/-- Claim C10: flattened text beginning with `<claudeMd>` in any
capitalization, and matching no other system tag, is never classified as
system content: the text is lowercased before comparison but the tag
list entry keeps an upper-case `M`, so that entry cannot match. -/
theorem c10_claudeMd_never_matches :
    ∀ mc : MessageContent,
      str "<claudemd>" <+: lowerStr mc.as_text →
      (∀ tag ∈ SYSTEM_TAGS, tag ≠ str "<claudeMd>" → ¬ tag <+: lowerStr mc.as_text) →
      mc.is_system_content = false := by
  intro mc hpre hothers
  have hne : mc.as_text ≠ [] := by
    intro h0
    rw [h0] at hpre
    have := List.eq_nil_of_prefix_nil hpre
    simp [str] at this
  simp only [MessageContent.is_system_content, List.isEmpty_iff, if_neg hne,
    List.any_eq_false]
  intro tag htag
  rw [Bool.not_eq_true, ← Bool.not_eq_true, List.isPrefixOf_iff_prefix]
  by_cases hM : tag = str "<claudeMd>"
  · subst hM
    intro hp
    have hmem : 'M' ∈ lowerStr mc.as_text := hp.subset (by decide)
    obtain ⟨c, _, hc⟩ := List.mem_map.mp hmem
    exact char_toLower_ne_M c hc
  · exact hothers tag htag hM

/-- Claim C10 witness. -/
theorem c10_witness :
    MessageContent.is_system_content (.Text (str "<claudemd>project notes")) = false :=
  c10_claudeMd_never_matches (.Text (str "<claudemd>project notes"))
    (by decide) (by decide)

/-- Claim C7: the preview is the truncated custom title whenever one is
set; with no custom title, a first message beats any summary; with
none of the three, a positive message count yields the bracketed
message-count label, and otherwise the preview is the bracketed
(possibly truncated) session id. -/
theorem c7_preview_priority :
    ∀ session : Session,
      (∀ t, session.custom_title = some t →
        get_session_preview session = truncate_message t 50) ∧
      (session.custom_title = none → ∀ m, session.first_message = some m →
        get_session_preview session = truncate_message m 50) ∧
      (session.custom_title = none → session.first_message = none →
        session.summary = none →
        ((∀ n, session.message_count = some n → 0 < n →
          get_session_preview session =
            str "[" ++ natStr n ++ str " message" ++
              (if n = 1 then [] else str "s") ++ str "]") ∧
        ((session.message_count = none ∨ session.message_count = some 0) →
          get_session_preview session =
            str "[" ++
              (if byteLen session.id > 12 then takeBytes 12 session.id ++ str "..."
               else session.id) ++ str "]"))) := by
  intro session
  refine ⟨?_, ?_, ?_⟩
  · intro t ht
    simp [get_session_preview, ht]
  · intro hc m hm
    simp [get_session_preview, hc, hm]
  · intro hc hm hs
    constructor
    · intro n hn hpos
      simp [get_session_preview, hc, hm, hs, hn, hpos]
    · rintro (hn | hn) <;> simp [get_session_preview, hc, hm, hs, hn]

/-- Claim C7 witness. -/
theorem c7_witness :
    get_session_preview { sampleSession "abc123def456" 0 with message_count := some 5 } =
      str "[" ++ natStr 5 ++ str " message" ++
        (if 5 = 1 then [] else str "s") ++ str "]" :=
  ((c7_preview_priority _).2.2 rfl rfl rfl).1 5 rfl (by decide)

/-- One scan step keeps the running byte counter equal to the summed
byte lengths of the accumulated content strings. -/
theorem scanStep_total_chars (acc : ScanAcc) (r : SessionRecord)
    (h : acc.total_chars = (acc.all_content.map byteLen).sum) :
    (scanStep acc r).total_chars = ((scanStep acc r).all_content.map byteLen).sum := by
  cases r with
  | Summary rr => simp [scanStep, h]
  | CustomTitle rr => simp [scanStep, h]
  | FileHistorySnapshot rr => simp [scanStep, h]
  | User rr =>
    simp only [scanStep]
    repeat' split
    all_goals simp_all [List.map_append]
  | Assistant rr =>
    simp only [scanStep]
    repeat' split
    all_goals simp_all [List.map_append]
  | System rr => simp [scanStep, h]
  | QueueOperation rr => simp [scanStep, h]
  | Unknown => simp [scanStep, h]

/-- The scan fold preserves the byte-counter invariant. -/
theorem scanFold_total_chars (pj : Str → Option Json) (pd : Str → Option Int) :
    ∀ (lines : List Str) (acc : ScanAcc),
      acc.total_chars = (acc.all_content.map byteLen).sum →
      (lines.foldl
          (fun acc line =>
            match decode_line pj pd line with
            | none => acc
            | some record => scanStep acc record) acc).total_chars =
        ((lines.foldl
          (fun acc line =>
            match decode_line pj pd line with
            | none => acc
            | some record => scanStep acc record) acc).all_content.map byteLen).sum
  | [], acc, h => h
  | line :: rest, acc, h => by
    simp only [List.foldl_cons]
    cases hd : decode_line pj pd line with
    | none => exact scanFold_total_chars pj pd rest acc h
    | some record =>
      exact scanFold_total_chars pj pd rest _ (scanStep_total_chars acc record h)

/-- After a whole scan the byte counter equals the summed byte lengths of
the searchable-content accumulator. -/
theorem scanLines_total_chars (pj : Str → Option Json) (pd : Str → Option Int)
    (lines : List Str) :
    (scanLines pj pd lines).total_chars =
      ((scanLines pj pd lines).all_content.map byteLen).sum :=
  scanFold_total_chars pj pd lines initScanAcc rfl

/-- Claim C1, counterexample: with one summary record of two 2-byte
scalars, the scan sets `token_count` to 1 (4 bytes / 4), not to the
character-based value 0 (2 characters / 4) that the claim prescribes. -/
theorem c1_counterexample :
    (load_session_metadata twoByteSummaryParse (fun _ => none)
        [str "x"] (sampleSession "s" 0)).token_count ≠
      some ((((scanLines twoByteSummaryParse (fun _ => none) [str "x"]).all_content).map
        charCount).sum / 4) := by
  decide

/-- Claim C1 (amended): after a metadata scan, `token_count` equals the
total number of UTF-8 BYTES of the strings accumulated into the
searchable-content accumulator (summary texts plus non-empty flattened
User and Assistant texts), divided by 4 with integer division — Rust
`str::len` counts bytes, not characters. -/
theorem c1_token_count_bytes :
    ∀ (pj : Str → Option Json) (pd : Str → Option Int) (lines : List Str)
      (session : Session),
      (load_session_metadata pj pd lines session).token_count =
        some ((((scanLines pj pd lines).all_content).map byteLen).sum / 4) := by
  intro pj pd lines session
  unfold load_session_metadata
  rw [← scanLines_total_chars]

/-- Claim C9: decoding one log line is total — it yields `some` record or
`none` and nothing else; it yields `none` on the empty line, on a line
the JSON parser rejects, and on a line whose JSON fails to decode into
the record shape; and a well-shaped record whose discriminator is not a
recognized tag decodes to the `Unknown` variant instead of failing. -/
theorem c9_decode_total :
    ∀ (pj : Str → Option Json) (pd : Str → Option Int) (line : Str),
      (decode_line pj pd line = none ∨ ∃ r, decode_line pj pd line = some r) ∧
      (line = [] → decode_line pj pd line = none) ∧
      (pj line = none → decode_line pj pd line = none) ∧
      (∀ v, pj line = some v → decodeSessionRecord pd v = none →
        decode_line pj pd line = none) ∧
      (∀ v tag fields, v = Json.obj fields →
        decodeReqStr v (str "type") = some tag → tag ∉ knownTags →
        decodeSessionRecord pd v = some .Unknown) := by
  intro pj pd line
  refine ⟨?_, ?_, ?_, ?_, ?_⟩
  · cases h : decode_line pj pd line with
    | none => exact Or.inl rfl
    | some r => exact Or.inr ⟨r, rfl⟩
  · intro h
    subst h
    rfl
  · intro h
    unfold decode_line
    rw [h]
    simp
  · intro v hv hdec
    unfold decode_line
    rw [hv]
    simp [hdec]
  · intro v tag fields hobj htag hmem
    subst hobj
    unfold decodeSessionRecord
    rw [htag]
    dsimp only
    simp only [knownTags, List.mem_cons, List.not_mem_nil, or_false, str] at hmem
    push_neg at hmem
    obtain ⟨h1, h2, h3, h4, h5, h6, h7⟩ := hmem
    rw [if_neg (by simpa [str] using h1), if_neg (by simpa [str] using h2),
        if_neg (by simpa [str] using h3), if_neg (by simpa [str] using h4),
        if_neg (by simpa [str] using h5), if_neg (by simpa [str] using h6),
        if_neg (by simpa [str] using h7)]

/-- Claim C9 witness. -/
theorem c9_witness :
    decodeSessionRecord (fun _ => none)
        (Json.obj [(str "type", Json.str (str "mystery"))]) = some .Unknown ∧
    decode_line mysteryParse (fun _ => none) [] = none :=
  ⟨(c9_decode_total mysteryParse (fun _ => none) (str "x")).2.2.2.2
      (Json.obj [(str "type", Json.str (str "mystery"))]) (str "mystery")
      [(str "type", Json.str (str "mystery"))] rfl (by decide) (by decide),
   (c9_decode_total mysteryParse (fun _ => none) []).2.1 rfl⟩

/-!
### Comparator facts for the sort engine
-/

theorem cmpNat_ne_gt {a b : Nat} : cmpNat a b ≠ .gt ↔ a ≤ b := by
  unfold cmpNat
  split_ifs with h1 h2 <;> constructor <;> intro h <;>
    first | omega | simp_all

theorem cmpNat_ne_lt {a b : Nat} : cmpNat a b ≠ .lt ↔ b ≤ a := by
  unfold cmpNat
  split_ifs with h1 h2 <;> constructor <;> intro h <;>
    first | omega | simp_all

theorem cmpInt_ne_gt {a b : Int} : cmpInt a b ≠ .gt ↔ a ≤ b := by
  unfold cmpInt
  split_ifs with h1 h2 <;> constructor <;> intro h <;>
    first | omega | simp_all

theorem cmpInt_ne_lt {a b : Int} : cmpInt a b ≠ .lt ↔ b ≤ a := by
  unfold cmpInt
  split_ifs with h1 h2 <;> constructor <;> intro h <;>
    first | omega | simp_all

theorem ordSwap_ne_gt {o : Ordering} : o.swap ≠ .gt ↔ o ≠ .lt := by
  cases o <;> simp [Ordering.swap]

theorem cmpNat_swap (a b : Nat) : cmpNat b a = (cmpNat a b).swap := by
  rcases Nat.lt_trichotomy a b with h | h | h
  · have h1 : ¬ b < a := by omega
    have h2 : b ≠ a := by omega
    simp [cmpNat, h, h1, h2, Ordering.swap]
  · subst h
    simp [cmpNat, Ordering.swap]
  · have h1 : ¬ a < b := by omega
    have h2 : a ≠ b := by omega
    simp [cmpNat, h, h1, h2, Ordering.swap]

theorem cmpInt_swap (a b : Int) : cmpInt b a = (cmpInt a b).swap := by
  rcases lt_trichotomy a b with h | h | h
  · have h1 : ¬ b < a := by omega
    have h2 : b ≠ a := by omega
    simp [cmpInt, h, h1, h2, Ordering.swap]
  · subst h
    simp [cmpInt, Ordering.swap]
  · have h1 : ¬ a < b := by omega
    have h2 : a ≠ b := by omega
    simp [cmpInt, h, h1, h2, Ordering.swap]

theorem cmpChar_swap (a b : Char) : cmpChar b a = (cmpChar a b).swap :=
  cmpNat_swap a.toNat b.toNat

theorem cmpStr_swap : ∀ (a b : Str), cmpStr b a = (cmpStr a b).swap
  | [], [] => rfl
  | [], _ :: _ => rfl
  | _ :: _, [] => rfl
  | a :: as, b :: bs => by
    simp only [cmpStr]
    rw [cmpChar_swap a b]
    cases h : cmpChar a b with
    | lt => rfl
    | eq => exact cmpStr_swap as bs
    | gt => rfl

theorem cmpChar_eq_lt {a b : Char} : cmpChar a b = .lt ↔ a.toNat < b.toNat := by
  unfold cmpChar cmpNat
  split_ifs with h1 h2 <;> constructor <;> intro h <;>
    first | omega | rfl | simp_all

theorem cmpChar_eq_eq' {a b : Char} : cmpChar a b = .eq ↔ a.toNat = b.toNat := by
  unfold cmpChar cmpNat
  split_ifs with h1 h2 <;> constructor <;> intro h <;>
    first | omega | rfl | simp_all

theorem cmpStr_trans : ∀ (a b c : Str),
    cmpStr a b ≠ .gt → cmpStr b c ≠ .gt → cmpStr a c ≠ .gt
  | [], _, [], _, _ => by simp [cmpStr]
  | [], _, _ :: _, _, _ => by simp [cmpStr]
  | _ :: _, [], _, h1, _ => absurd rfl h1
  | _ :: _, _ :: _, [], _, h2 => absurd rfl h2
  | a :: as, b :: bs, c :: cs, h1, h2 => by
    simp only [cmpStr] at h1 h2 ⊢
    cases hab : cmpChar a b with
    | gt => rw [hab] at h1; exact absurd rfl h1
    | lt =>
      have hab' : a.toNat < b.toNat := cmpChar_eq_lt.mp hab
      cases hbc : cmpChar b c with
      | gt => rw [hbc] at h2; exact absurd rfl h2
      | lt =>
        have hbc' : b.toNat < c.toNat := cmpChar_eq_lt.mp hbc
        rw [cmpChar_eq_lt.mpr (by omega : a.toNat < c.toNat)]
        simp
      | eq =>
        have hbc' : b.toNat = c.toNat := cmpChar_eq_eq'.mp hbc
        rw [cmpChar_eq_lt.mpr (by omega : a.toNat < c.toNat)]
        simp
    | eq =>
      rw [hab] at h1
      have hab' : a.toNat = b.toNat := cmpChar_eq_eq'.mp hab
      cases hbc : cmpChar b c with
      | gt => rw [hbc] at h2; exact absurd rfl h2
      | lt =>
        have hbc' : b.toNat < c.toNat := cmpChar_eq_lt.mp hbc
        rw [cmpChar_eq_lt.mpr (by omega : a.toNat < c.toNat)]
        simp
      | eq =>
        rw [hbc] at h2
        have hbc' : b.toNat = c.toNat := cmpChar_eq_eq'.mp hbc
        rw [cmpChar_eq_eq'.mpr (by omega : a.toNat = c.toNat)]
        exact cmpStr_trans as bs cs h1 h2

theorem strAsc_total (a b : Str) : strAsc a b ∨ strAsc b a := by
  unfold strAsc
  cases h : cmpStr a b with
  | lt => left; simp [h]
  | eq => left; simp [h]
  | gt =>
    right
    rw [cmpStr_swap, h]
    simp [Ordering.swap]

theorem strAsc_trans {a b c : Str} : strAsc a b → strAsc b c → strAsc a c :=
  cmpStr_trans a b c

theorem cmpStr_swap_ne_gt (x y : Str) :
    (cmpStr x y).swap ≠ .gt ↔ cmpStr y x ≠ .gt := by
  rw [← cmpStr_swap]

/-- The comparator relation coincides with the order stated by the
specification, field by field. -/
theorem sortRel_iff_spec (sessions : List Session) (f : SortField) (r : Bool)
    (a b : Nat) : sortRel sessions f r a b ↔ specSortRel sessions f r a b := by
  cases f <;> cases r <;>
    simp only [sortRel, sort_cmp, specSortRel, strAsc] <;>
    try dsimp only
  · exact cmpInt_ne_gt
  · rw [if_pos trivial, ordSwap_ne_gt]; exact cmpInt_ne_lt
  · exact cmpNat_ne_gt
  · rw [if_pos trivial, ordSwap_ne_gt]; exact cmpNat_ne_lt
  · exact Iff.rfl
  · rw [if_pos trivial]; exact cmpStr_swap_ne_gt _ _
  · exact Iff.rfl
  · rw [if_pos trivial]; exact cmpStr_swap_ne_gt _ _

theorem specSortRel_total (sessions : List Session) (f : SortField) (r : Bool) :
    ∀ a b, specSortRel sessions f r a b ∨ specSortRel sessions f r b a := by
  intro a b
  cases f <;> cases r <;> dsimp only [specSortRel] <;>
    first | exact le_total _ _ | exact Nat.le_total _ _ | exact strAsc_total _ _

theorem specSortRel_trans (sessions : List Session) (f : SortField) (r : Bool) :
    ∀ a b c, specSortRel sessions f r a b → specSortRel sessions f r b c →
      specSortRel sessions f r a c := by
  intro a b c h1 h2
  cases f <;> cases r <;> dsimp only [specSortRel] at * <;>
    first | omega | exact strAsc_trans h1 h2 | exact strAsc_trans h2 h1

theorem sortRel_total (sessions : List Session) (f : SortField) (r : Bool) :
    ∀ a b, sortRel sessions f r a b ∨ sortRel sessions f r b a := by
  intro a b
  rw [sortRel_iff_spec, sortRel_iff_spec]
  exact specSortRel_total sessions f r a b

theorem sortRel_trans (sessions : List Session) (f : SortField) (r : Bool) :
    ∀ a b c, sortRel sessions f r a b → sortRel sessions f r b c →
      sortRel sessions f r a c := by
  intro a b c h1 h2
  rw [sortRel_iff_spec] at *
  exact specSortRel_trans sessions f r a b c h1 h2

/-- Claim C8: `apply_sort` re-orders `filtered_indices` only (the session
collection is untouched and the new index list is a permutation of the
old), ordering it by the active field — Date by `modified` descending,
Size by `size_bytes` descending, Project ascending lexicographic, Name
by summary else first message else empty ascending lexicographic — with
the comparator inverted when `sort_reversed` is set; in the concrete
scenario with mtimes T1 > T2 > T3 the default sort yields [T1, T2, T3]
and the reversed sort yields [T3, T2, T1]. -/
theorem c8_apply_sort :
    (∀ st : UiState,
      (apply_sort st).sessions = st.sessions ∧
      (apply_sort st).filtered_indices.Perm st.filtered_indices ∧
      List.Sorted (specSortRel st.sessions st.sort_field st.sort_reversed)
        (apply_sort st).filtered_indices) ∧
    ((apply_sort scenarioState).filtered_indices.map
        (fun i => (sessOf scenarioSessions i).modified) = [30, 20, 10] ∧
      (apply_sort { apply_sort scenarioState with sort_reversed := true }).filtered_indices.map
        (fun i => (sessOf scenarioSessions i).modified) = [10, 20, 30]) := by
  constructor
  · intro st
    refine ⟨rfl, List.perm_insertionSort _ _, ?_⟩
    letI : IsTotal Nat (sortRel st.sessions st.sort_field st.sort_reversed) :=
      ⟨sortRel_total st.sessions st.sort_field st.sort_reversed⟩
    letI : IsTrans Nat (sortRel st.sessions st.sort_field st.sort_reversed) :=
      ⟨sortRel_trans st.sessions st.sort_field st.sort_reversed⟩
    have hs := List.sorted_insertionSort
      (sortRel st.sessions st.sort_field st.sort_reversed) st.filtered_indices
    exact hs.imp (fun h => (sortRel_iff_spec _ _ _ _ _).mp h)
  · exact ⟨by decide, by decide⟩

/-!
### View-state invariant lemmas
-/

theorem apply_filters_sessions (now : Int) (st : UiState) :
    (apply_filters now st).sessions = st.sessions := rfl

theorem apply_filters_selected (now : Int) (st : UiState) :
    (apply_filters now st).selected = st.selected := rfl

theorem apply_filters_mem (now : Int) (st : UiState) :
    ∀ i ∈ (apply_filters now st).filtered_indices, i < st.sessions.length := by
  intro i hi
  obtain ⟨p, hp, rfl⟩ := List.mem_map.mp hi
  exact List.fst_lt_of_mem_enum (List.mem_of_mem_filter hp)

/-- The clamping step shared by `apply_filters` and `apply_sort`. -/
theorem clamp_cursor_ok (L : List Nat) (c : Nat) :
    (if L.length ≤ c then L.length - 1 else c) < L.length ∨
      (L = [] ∧ (if L.length ≤ c then L.length - 1 else c) = 0) := by
  rcases Nat.eq_zero_or_pos L.length with h0 | h0
  · right
    refine ⟨List.eq_nil_of_length_eq_zero h0, ?_⟩
    rw [if_pos (by omega)]
    omega
  · left
    split_ifs <;> omega

theorem apply_filters_cursor (now : Int) (st : UiState) :
    (apply_filters now st).cursor < (apply_filters now st).filtered_indices.length ∨
      ((apply_filters now st).filtered_indices = [] ∧
        (apply_filters now st).cursor = 0) :=
  clamp_cursor_ok _ st.cursor

theorem Inv_apply_filters (now : Int) (st : UiState)
    (hsel : ∀ i ∈ st.selected, i < st.sessions.length) :
    Inv (apply_filters now st) :=
  ⟨apply_filters_cursor now st, apply_filters_mem now st, hsel⟩

theorem adjust_scroll_fields (st : UiState) :
    (adjust_scroll st).cursor = st.cursor ∧
    (adjust_scroll st).filtered_indices = st.filtered_indices ∧
    (adjust_scroll st).sessions = st.sessions ∧
    (adjust_scroll st).selected = st.selected := by
  unfold adjust_scroll
  dsimp only
  split_ifs <;> exact ⟨rfl, rfl, rfl, rfl⟩

theorem Inv_of_fields {st st' : UiState}
    (hc : st'.cursor = st.cursor) (hf : st'.filtered_indices = st.filtered_indices)
    (hs : st'.sessions = st.sessions) (hsel : st'.selected = st.selected)
    (h : Inv st) : Inv st' := by
  unfold Inv at *
  rw [hc, hf, hs, hsel]
  exact h

theorem Inv_adjust_scroll {st : UiState} (h : Inv st) : Inv (adjust_scroll st) := by
  obtain ⟨h1, h2, h3, h4⟩ := adjust_scroll_fields st
  exact Inv_of_fields h1 h2 h3 h4 h

theorem Inv_set_cursor {st : UiState} (hinv : Inv st) (c : Nat)
    (hc : c < st.filtered_indices.length ∨
      (st.filtered_indices = [] ∧ c = 0)) :
    Inv { st with cursor := c } :=
  ⟨hc, hinv.2.1, hinv.2.2⟩

theorem Inv_apply_sort (st : UiState) (hinv : Inv st) : Inv (apply_sort st) := by
  obtain ⟨hcur, hfilt, hsel⟩ := hinv
  refine ⟨clamp_cursor_ok _ st.cursor, ?_, hsel⟩
  intro i hi
  have hperm := List.perm_insertionSort
    (sortRel st.sessions st.sort_field st.sort_reversed) st.filtered_indices
  exact hfilt i (hperm.mem_iff.mp hi)

/-- Claim C5: every public view-state operation — cursor moves, selection
operations, `apply_filters`, `apply_sort`, `cycle_project_filter` and
`remove_sessions` — preserves the invariant that the cursor is a valid
index into `filtered_indices` (or 0 when it is empty), that every
filtered index is an index of the session collection, and that the
selection contains only indices of the session collection. -/
theorem c5_view_state_invariant :
    ∀ (op : Op) (st : UiState), Inv st → Inv (stepOp op st) := by
  intro op st hinv
  obtain ⟨hcur, hfilt, hsel⟩ := hinv
  cases op with
  | CursorUp =>
    show Inv (cursor_up st)
    unfold cursor_up
    split_ifs with h
    · refine Inv_adjust_scroll (Inv_set_cursor ⟨hcur, hfilt, hsel⟩ _ ?_)
      left
      rcases hcur with hc | ⟨hnil, hc0⟩ <;> omega
    · exact ⟨hcur, hfilt, hsel⟩
  | CursorDown =>
    show Inv (cursor_down st)
    unfold cursor_down
    split_ifs with h
    · refine Inv_adjust_scroll (Inv_set_cursor ⟨hcur, hfilt, hsel⟩ _ ?_)
      left
      omega
    · exact ⟨hcur, hfilt, hsel⟩
  | CursorTop =>
    show Inv (cursor_top st)
    refine ⟨?_, hfilt, hsel⟩
    rcases Nat.eq_zero_or_pos st.filtered_indices.length with h0 | h0
    · exact Or.inr ⟨List.eq_nil_of_length_eq_zero h0, rfl⟩
    · exact Or.inl h0
  | CursorBottom =>
    show Inv (cursor_bottom st)
    unfold cursor_bottom
    split_ifs with h
    · exact ⟨hcur, hfilt, hsel⟩
    · refine Inv_adjust_scroll (Inv_set_cursor ⟨hcur, hfilt, hsel⟩ _ ?_)
      left
      have hne : st.filtered_indices ≠ [] := by simpa using h
      have hpos : 0 < st.filtered_indices.length := List.length_pos.mpr hne
      omega
  | PageUp n =>
    show Inv (page_up n st)
    refine Inv_adjust_scroll (Inv_set_cursor ⟨hcur, hfilt, hsel⟩ _ ?_)
    rcases hcur with hc | ⟨hnil, hc0⟩
    · exact Or.inl (by omega)
    · exact Or.inr ⟨hnil, by omega⟩
  | PageDown n =>
    show Inv (page_down n st)
    refine Inv_adjust_scroll (Inv_set_cursor ⟨hcur, hfilt, hsel⟩ _ ?_)
    rcases Nat.eq_zero_or_pos st.filtered_indices.length with h0 | h0
    · exact Or.inr ⟨List.eq_nil_of_length_eq_zero h0, by omega⟩
    · exact Or.inl (by omega)
  | ToggleSelection =>
    show Inv (toggle_selection st)
    unfold toggle_selection
    cases hidx : current_session_index st with
    | none => exact ⟨hcur, hfilt, hsel⟩
    | some idx =>
      have hmem : idx ∈ st.filtered_indices := List.get?_mem hidx
      have hlt : idx < st.sessions.length := hfilt idx hmem
      dsimp only
      split_ifs with h
      · refine ⟨hcur, hfilt, ?_⟩
        intro i hi
        exact hsel i (Finset.mem_of_mem_erase hi)
      · refine ⟨hcur, hfilt, ?_⟩
        intro i hi
        rcases Finset.mem_insert.mp hi with rfl | hi
        · exact hlt
        · exact hsel i hi
  | SelectAll =>
    show Inv (select_all st)
    refine ⟨hcur, hfilt, ?_⟩
    intro i hi
    rcases Finset.mem_union.mp hi with hi | hi
    · exact hsel i hi
    · exact hfilt i (List.mem_toFinset.mp hi)
  | ClearSelection =>
    show Inv (clear_selection st)
    refine ⟨hcur, hfilt, ?_⟩
    intro i hi
    exact absurd hi (Finset.not_mem_empty i)
  | ApplyFilters now =>
    exact Inv_apply_filters now st hsel
  | ApplySort =>
    exact Inv_apply_sort st ⟨hcur, hfilt, hsel⟩
  | CycleProjectFilter now =>
    show Inv (cycle_project_filter now st)
    unfold cycle_project_filter
    exact Inv_apply_filters now _ hsel
  | RemoveSessions now indices =>
    show Inv (remove_sessions now indices st)
    unfold remove_sessions
    have h2 := Inv_apply_filters now
      { st with
          sessions := ((indices.sort (fun a b => a ≤ b)).reverse).foldl
            (fun ss idx => if idx < ss.length then ss.eraseIdx idx else ss) st.sessions,
          selected := ∅ }
      (by intro i hi; exact absurd hi (Finset.not_mem_empty i))
    exact Inv_of_fields rfl rfl rfl rfl h2

/-- Claim C5 witness. -/
theorem c5_witness : Inv (stepOp .CursorDown (UiState.new scenarioSessions)) :=
  c5_view_state_invariant .CursorDown (UiState.new scenarioSessions) (by decide)

/-- Claim C4, counterexample: removing index 0 from a two-session view and
reapplying filters leaves the integer index 0 in `filtered_indices` — it
now denotes the session that shifted down into position 0 — so "index i
is never reachable from filtered_indices" fails as stated. -/
theorem c4_counterexample :
    0 ∈ (apply_filters 0 (remove_sessions 0 {0}
      (UiState.new [sampleSession "a" 0, sampleSession "b" 5]))).filtered_indices := by
  unfold remove_sessions
  rw [Finset.sort_singleton]
  decide

/-- Claim C4 (amended): `remove_sessions({i})` followed by `apply_filters`
leaves the selection empty — in particular `i` is no longer selected —
and every index reachable from `filtered_indices` is an index of the
shrunk collection, from which the removed session itself is gone
(`sessions` equals the old collection with position `i` erased whenever
`i` was in range); the integer `i` itself may still occur in
`filtered_indices`, denoting the session shifted down into position `i`. -/
theorem c4_remove_then_filter :
    ∀ (now : Int) (i : Nat) (st : UiState),
      (apply_filters now (remove_sessions now {i} st)).selected = ∅ ∧
      i ∉ (apply_filters now (remove_sessions now {i} st)).selected ∧
      (∀ j ∈ (apply_filters now (remove_sessions now {i} st)).filtered_indices,
        j < (apply_filters now (remove_sessions now {i} st)).sessions.length) ∧
      (i < st.sessions.length →
        (apply_filters now (remove_sessions now {i} st)).sessions =
          st.sessions.eraseIdx i) := by
  intro now i st
  have hempty : (apply_filters now (remove_sessions now {i} st)).selected = ∅ := rfl
  refine ⟨hempty, ?_, ?_, ?_⟩
  · rw [hempty]
    exact Finset.not_mem_empty i
  · exact apply_filters_mem now _
  · intro hi
    show (remove_sessions now {i} st).sessions = _
    unfold remove_sessions
    rw [Finset.sort_singleton]
    simp only [List.reverse_cons, List.reverse_nil, List.nil_append,
      List.foldl_cons, List.foldl_nil]
    rw [if_pos hi]
    rfl

/-- Claim C4 witness. -/
theorem c4_witness :
    (apply_filters 0 (remove_sessions 0 {0}
      (UiState.new [sampleSession "a" 0, sampleSession "b" 5]))).sessions =
      ([sampleSession "a" 0, sampleSession "b" 5]).eraseIdx 0 :=
  (c4_remove_then_filter 0 0
    (UiState.new [sampleSession "a" 0, sampleSession "b" 5])).2.2.2 (by decide)

end CcSessionCtl
